import Mathlib

/-!
Verification development for the YouTube-Shorts bulk downloader
(`main.py`, class `YouTubeShortsScraper`).

The Python code is shallowly embedded: the shared mutable state of the
scraper object becomes explicit state records, the Selenium browser and
the yt-dlp subprocess become oracle functions supplied as parameters,
and the unbounded `while True` discovery loop becomes a fuel-indexed
recursion (fuel exhaustion is reported as a distinct `none` outcome so
that no behaviour is invented for truncated runs).

Python strings are modelled as Lean `String`; machine-independent parts
(`str.isalnum` and friends) are modelled over ASCII, which covers every
concrete input appearing in the claims.
-/

namespace YTShorts

/-! ## Generic list helpers used by several phases -/

/-- Decidable substring test on character lists: Python's `needle in hay`. -/
def containsSub (hay needle : List Char) : Bool :=
  match hay with
  | [] => needle.isEmpty
  | _ :: t => needle.isPrefixOf hay || containsSub t needle

/-- In-place update of one list element, mirroring a Python assignment
through a reference into the shared `scraped_data` list.  Out-of-range
indices leave the list unchanged. -/
def updateAt {α : Type} : List α → Nat → (α → α) → List α
  | [], _, _ => []
  | x :: xs, 0, f => f x :: xs
  | x :: xs, n + 1, f => x :: updateAt xs n f

/-- Fuel-driven worker for `chunks`; with fuel at least the list length
the fuel never runs out (each step consumes at least one element), and
keeping the recursion structural lets the kernel evaluate it. -/
def chunksF {α : Type} (B : Nat) : Nat → List α → List (List α)
  | _, [] => []
  | 0, x :: xs => [x :: xs]
  | fuel + 1, x :: xs => (x :: xs.take (B - 1)) :: chunksF B fuel (xs.drop (B - 1))

/-- Python slicing loop `for i in range(0, len(l), B): l[i : i + B]`
(source line 389: the batch partition of the pending list).
For `B = 0` Python raises; the GUI validates `batch_size > 0`, and every
theorem about `chunks` carries that hypothesis. -/
def chunks {α : Type} (B : Nat) (l : List α) : List (List α) :=
  chunksF B l.length l

lemma chunksF_congr {α : Type} (B : Nat) :
    ∀ (f1 : Nat) (l : List α) (f2 : Nat), l.length ≤ f1 → l.length ≤ f2 →
      chunksF B f1 l = chunksF B f2 l
  | f1, [], f2 => by
    intro _ _
    cases f1 <;> cases f2 <;> rfl
  | 0, x :: xs, f2 => by
    intro h _
    simp at h
  | f1 + 1, x :: xs, f2 => by
    intro h1 h2
    cases f2 with
    | zero => simp at h2
    | succ f2' =>
      simp only [chunksF, List.cons.injEq, true_and]
      exact chunksF_congr B f1 (xs.drop (B - 1)) f2'
        (by rw [List.length_drop]; simp only [List.length_cons] at h1; omega)
        (by rw [List.length_drop]; simp only [List.length_cons] at h2; omega)

@[simp] lemma chunks_nil {α : Type} (B : Nat) : chunks B ([] : List α) = [] := rfl

/-- The defining unfolding of the batch partition. -/
lemma chunks_cons {α : Type} (B : Nat) (x : α) (xs : List α) :
    chunks B (x :: xs) = (x :: xs.take (B - 1)) :: chunks B (xs.drop (B - 1)) := by
  show chunksF B (xs.length + 1) (x :: xs) = _
  rw [chunksF]
  unfold chunks
  congr 1
  exact chunksF_congr B xs.length (xs.drop (B - 1)) (xs.drop (B - 1)).length
    (by rw [List.length_drop]; omega) le_rfl

/-- Decimal digit character, as rendered by Python's `str(int)` /
f-string formatting for a digit value. -/
def digitChar (d : Nat) : Char := Char.ofNat (48 + d)

/-- Decimal rendering of a natural number, as Python's `str(n)` /
f-string formatting of a non-negative int. -/
def natChars (n : Nat) : List Char :=
  if _h : n < 10 then [digitChar n]
  else natChars (n / 10) ++ [digitChar (n % 10)]
decreasing_by
  exact Nat.div_lt_self (by omega) (by omega)

/-! ## Data model

`ItemRecord` embeds one entry of `self.scraped_data`
(dict keys `URL Video`, `Title`, `Description`, `Download_Status`;
source line 243).  The status field keeps the source's one-letter codes
`N` / `D` / `E`. -/

structure ItemRecord where
  url : String
  title : String
  description : String
  status : String
deriving DecidableEq

/-! ## Discovery Engine (`_scrape_shorts_data_phase`, source lines 171-287)

One extracted anchor element is reduced to the three DOM reads the code
performs on it: `get_attribute("href")`, `get_attribute("title")` and the
text of the nested `span.yt-core-attributed-string` (absent nested span
modelled as `none`). -/

structure Element where
  href : Option String
  titleAttr : Option String
  spanText : Option String
deriving DecidableEq

/-- Whitespace stripped by Python's `str.strip()` (ASCII part). -/
def pyIsSpaceChar (c : Char) : Bool :=
  c = ' ' || c = '\t' || c = '\n' || c = '\r' || c = Char.ofNat 11 || c = Char.ofNat 12

/-- Python `str.strip()` on a character list. -/
def stripChars (l : List Char) : List Char :=
  ((l.dropWhile pyIsSpaceChar).reverse.dropWhile pyIsSpaceChar).reverse

/-- Python `str.strip()` on a string. -/
def pyStrip (s : String) : String := String.mk (stripChars s.data)

/-- Title resolution for one element (source lines 226-235): a non-empty
`title` attribute wins, else the stripped text of the nested span, else
the empty string. -/
def elementTitle (e : Element) : String :=
  match e.titleAttr with
  | some t =>
    if t.isEmpty then
      match e.spanText with
      | some s => pyStrip s
      | none => ""
    else pyStrip t
  | none =>
    match e.spanText with
    | some s => pyStrip s
    | none => ""

/-- Mutable locals of the discovery loop together with the object fields
it writes (source lines 175-179 and the loop body). -/
structure ScrapeState where
  scraped_data : List ItemRecord
  urls_found_set : List String
  last_height : Int
  no_new_urls_consecutive_scrolls : Nat
  scroll_count : Nat
deriving DecidableEq

/-- `href = urljoin(channel_url, href)` when the href is relative
(source lines 239-240); `resolve` stands for `urljoin(channel_url, ·)`. -/
def absoluteHref (resolve : String → String) (href : String) : String :=
  if href.startsWith "http" then href else resolve href

/-- Processing of one extracted element (source lines 224-245).
A new URL appends a fresh record with status `N` and enters the
seen-set; a seen URL is skipped. -/
def processElement (resolve : String → String) (st : ScrapeState) (e : Element) :
    ScrapeState :=
  match e.href with
  | none => st
  | some href =>
    if href.isEmpty then st
    else if containsSub href.data "/shorts/".data then
      if absoluteHref resolve href ∈ st.urls_found_set then st
      else
        { st with
          scraped_data := st.scraped_data ++
            [{ url := absoluteHref resolve href, title := elementTitle e,
               description := "", status := "N" }],
          urls_found_set := absoluteHref resolve href :: st.urls_found_set }
    else st

/-- The `for element in video_elements` scan of one scroll iteration. -/
def scanElements (resolve : String → String) (es : List Element) (st : ScrapeState) :
    ScrapeState :=
  es.foldl (processElement resolve) st

/-- `self.scroll_count += 1` (source line 203). -/
def bumped (st : ScrapeState) : ScrapeState :=
  { st with scroll_count := st.scroll_count + 1 }

/-- The stall-counter update of source lines 247-250: reset to zero when
the seen-set grew during this iteration's scan, increment otherwise. -/
def stallUpdated (lenBefore : Nat) (st : ScrapeState) : ScrapeState :=
  if lenBefore < st.urls_found_set.length then
    { st with no_new_urls_consecutive_scrolls := 0 }
  else
    { st with no_new_urls_consecutive_scrolls :=
        st.no_new_urls_consecutive_scrolls + 1 }

/-- One scroll iteration of the discovery loop up to and including the
stall-counter update (source lines 203-250): bump the scroll counter,
scan the extracted elements of this iteration, update the counter. -/
def scrapeIter (resolve : String → String) (feed : Nat → List Element × Int)
    (st : ScrapeState) : ScrapeState :=
  stallUpdated st.urls_found_set.length
    (scanElements resolve (feed st.scroll_count).1 (bumped st))

/-- The discovery `while True` loop (source lines 197-274), driven by
fuel.  `feed k` gives the elements extracted on iteration `k` (0-based)
together with the scroll height read at the end of that iteration;
`cancel k` is the `stop_scraping_flag` as observed at the start of
iteration `k`.  Result `some true` is the source's `return True` paths
(target reached / height stable / stall limit), `some false` the
cancellation path, `none` fuel exhaustion (the real loop would continue).
The soft warning at 5 consecutive stalls (source line 267) is log-only;
the hard stop is the nested check at 10 (source line 271). -/
def scrapeLoop (resolve : String → String) (target : Nat)
    (feed : Nat → List Element × Int) (cancel : Nat → Bool) :
    Nat → ScrapeState → ScrapeState × Option Bool
  | 0, st => (st, none)
  | fuel + 1, st =>
    if cancel st.scroll_count then (st, some false)
    else if 0 < target ∧ target ≤ (scrapeIter resolve feed st).urls_found_set.length then
      (scrapeIter resolve feed st, some true)
    else if (feed st.scroll_count).2 = (scrapeIter resolve feed st).last_height then
      (scrapeIter resolve feed st, some true)
    else if 10 ≤ (scrapeIter resolve feed st).no_new_urls_consecutive_scrolls then
      ({ scrapeIter resolve feed st with last_height := (feed st.scroll_count).2 }, some true)
    else
      scrapeLoop resolve target feed cancel fuel
        { scrapeIter resolve feed st with last_height := (feed st.scroll_count).2 }

/-- State reset done at the top of `_scrape_shorts_data_phase`
(source lines 175-179); `initialHeight` is the first
`document.documentElement.scrollHeight` read (source line 192). -/
def initScrapeState (initialHeight : Int) : ScrapeState :=
  { scraped_data := []
    urls_found_set := []
    last_height := initialHeight
    no_new_urls_consecutive_scrolls := 0
    scroll_count := 0 }

/-- The whole discovery phase on a fresh state. -/
def scrapeShortsDataPhase (resolve : String → String) (target : Nat)
    (feed : Nat → List Element × Int) (cancel : Nat → Bool)
    (fuel : Nat) (initialHeight : Int) : ScrapeState × Option Bool :=
  scrapeLoop resolve target feed cancel fuel (initScrapeState initialHeight)

/-! ## Filename sanitization (`_download_videos`, source lines 407-413)

`str.isalnum` is modelled over ASCII via `Char.isAlphanum`; every
character class the claims mention is ASCII. -/

/-- Characters kept by the sanitizing filter (source line 409):
alphanumerics, space, dot, underscore, hyphen. -/
def keepChar (c : Char) : Bool :=
  c.isAlphanum || c = ' ' || c = '.' || c = '_' || c = '-'

/-- `replace(" ", "_")` for the single-character pattern of line 410. -/
def spaceToUnderscore (l : List Char) : List Char :=
  l.map fun c => if c = ' ' then '_' else c

/-- The fallback name of source line 412,
`f"Untitled_Video_{hash(video_url) % 100000}"`.  `urlHash` stands for
the Python `hash(video_url)` value of this process (salted, hence a
parameter); `% 100000` on a possibly negative int is Python's floor
mod, i.e. `Int.emod` for a positive modulus. -/
def placeholderChars (urlHash : Int) : List Char :=
  "Untitled_Video_".data ++ natChars (urlHash.emod 100000).toNat

/-- Filter, strip and space-replacement of source lines 409-410. -/
def cleanedChars (title : List Char) : List Char :=
  spaceToUnderscore (stripChars (title.filter keepChar))

/-- The sanitization chain of source lines 409-413 on character lists:
filter, strip, spaces to underscores, hash-derived fallback for an
empty result, truncation to 100 characters. -/
def sanitizeChars (title : List Char) (urlHash : Int) : List Char :=
  (if (cleanedChars title).isEmpty then placeholderChars urlHash
   else cleanedChars title).take 100

/-- String form of the sanitizer. -/
def sanitizeTitle (title : String) (urlHash : Int) : String :=
  String.mk (sanitizeChars title.data urlHash)

/-- `video_title = Title if Title else f"Untitled Video {int(time.time())}"`
(source line 407); `now` is the wall-clock read. -/
def effectiveTitle (title : String) (now : Nat) : String :=
  if title.isEmpty then "Untitled Video " ++ String.mk (natChars now) else title

/-! ## Download Orchestrator (`_download_videos`, source lines 349-508)

The yt-dlp subprocess is abstracted by an oracle indexed by the running
count of invocations; one `DlOutcome` per `subprocess.run` call
distinguishes the five `try/except` arms of source lines 448-482.  The
command construction (cookies, format lookup, output template) only
feeds the subprocess and is folded into the oracle. -/

inductive DlOutcome where
  | success
  | calledProcessError (msg : String)
  | fileNotFound
  | timedOut
  | otherError (msg : String)
deriving DecidableEq

/-- One entry of `self.download_errors` (the source formats these as an
`URL / Title / Error` text block; the three fields are kept structured). -/
structure DownloadError where
  url : String
  title : String
  message : String
deriving DecidableEq

/-- The message of the downloader-missing error entry (source line 472). -/
def downloaderMissingMsg : String := "Downloader not found (yt-dlp or youtube-dl)."

/-- Mutable state of the download phase: the shared item store, the
accumulated `download_errors`, the `stop_scraping_flag`, and a running
count of yt-dlp subprocess invocations (the oracle's index). -/
structure DlState where
  items : List ItemRecord
  errors : List DownloadError
  stopFlag : Bool
  invocations : Nat
deriving DecidableEq

/-- Indices of the items picked up by one pass (source lines 379-381):
`[item for item in scraped_data if status == "N" or status == "E"]`,
represented by position so that the later status writes hit the shared
store like the Python references do. -/
def pendingIdxs (items : List ItemRecord) : List Nat :=
  (List.range items.length).filter fun i =>
    match items.get? i with
    | some it => it.status = "N" || it.status = "E"
    | none => false

/-- The reset loop of source lines 367-369: every item that is not
already `D` is set to `N`. -/
def resetItems (items : List ItemRecord) : List ItemRecord :=
  items.map fun it => if it.status = "D" then it else { it with status := "N" }

/-- url/title of the item at `idx`, as used for error-list entries. -/
def itemUrlTitle (items : List ItemRecord) (idx : Nat) : String × String :=
  match items.get? idx with
  | some it => (it.url, it.title)
  | none => ("", "")

/-- One entry appended to `download_errors` for the item at `idx`. -/
def mkDlError (items : List ItemRecord) (idx : Nat) (msg : String) : DownloadError :=
  { url := (itemUrlTitle items idx).1, title := (itemUrlTitle items idx).2, message := msg }

/-- `item["Download_Status"] = s`. -/
def withStatus (s : String) (it : ItemRecord) : ItemRecord := { it with status := s }

/-- One `subprocess.run` attempt for the item at `idx` (source lines
402-482, delays elided): on success status `D`; on a process error,
timeout or unexpected error status `E` plus an error entry; on
`FileNotFoundError` the status is left unchanged, a downloader-missing
entry is appended and the stop flag is set (source lines 469-474). -/
def runItem (oracle : Nat → DlOutcome) (st : DlState) (idx : Nat) : DlState :=
  match oracle st.invocations with
  | .success =>
    { st with invocations := st.invocations + 1,
              items := updateAt st.items idx (withStatus "D") }
  | .calledProcessError msg =>
    { st with invocations := st.invocations + 1,
              items := updateAt st.items idx (withStatus "E"),
              errors := st.errors ++ [mkDlError st.items idx msg] }
  | .fileNotFound =>
    { st with invocations := st.invocations + 1,
              errors := st.errors ++ [mkDlError st.items idx downloaderMissingMsg],
              stopFlag := true }
  | .timedOut =>
    { st with invocations := st.invocations + 1,
              items := updateAt st.items idx (withStatus "E"),
              errors := st.errors ++ [mkDlError st.items idx "Download timed out."] }
  | .otherError msg =>
    { st with invocations := st.invocations + 1,
              items := updateAt st.items idx (withStatus "E"),
              errors := st.errors ++ [mkDlError st.items idx msg] }

/-- The `for video_data in batch_videos` loop: the stop flag is checked
before every item (source line 403), and the `FileNotFoundError` arm
breaks out via the flag it has just set. -/
def runBatch (oracle : Nat → DlOutcome) (st : DlState) : List Nat → DlState
  | [] => st
  | idx :: rest =>
    if st.stopFlag then st else runBatch oracle (runItem oracle st idx) rest

/-- The `for i in range(0, len(pending), batch_size)` loop: the flag is
checked before each batch and again after it (source lines 390, 491). -/
def runBatches (oracle : Nat → DlOutcome) (st : DlState) : List (List Nat) → DlState
  | [] => st
  | b :: rest =>
    if st.stopFlag then st
    else if (runBatch oracle st b).stopFlag then runBatch oracle st b
    else runBatches oracle (runBatch oracle st b) rest

/-- The end-of-pass checks (source lines 494-505): stop when cancelled
or when every item is `D`, otherwise run the remaining passes. -/
def passesAfter (recur : DlState → DlState) (st : DlState) : DlState :=
  if st.stopFlag then st
  else if st.items.all fun it => it.status = "D" then st
  else recur st

/-- The `for retry_attempt in range(download_retries + 1)` loop
(source lines 371-505, inter-pass sleeps elided): stop when cancelled,
when nothing is pending, or — after the pass — when cancelled or when
every item is `D`. -/
def runPasses (oracle : Nat → DlOutcome) (batchSize : Nat) :
    Nat → DlState → DlState
  | 0, st => st
  | fuel + 1, st =>
    if st.stopFlag then st
    else if (pendingIdxs st.items).isEmpty then st
    else
      passesAfter (runPasses oracle batchSize fuel)
        (runBatches oracle st (chunks batchSize (pendingIdxs st.items)))

/-- The whole `_download_videos` call: early return on an empty store,
reset of `download_errors` and of non-`D` statuses, then
`download_retries + 1` passes.  The stop flag starts clear (mid-phase
user cancellation is not modelled; the only in-phase setter is the
downloader-missing arm). -/
def downloadVideos (items : List ItemRecord) (oracle : Nat → DlOutcome)
    (downloadRetries batchSize : Nat) : DlState :=
  if items.isEmpty then
    { items := items, errors := [], stopFlag := false, invocations := 0 }
  else
    runPasses oracle batchSize (downloadRetries + 1)
      { items := resetItems items, errors := [], stopFlag := false, invocations := 0 }

/-! ## Enrichment Engine (`_get_descriptions_phase`, source lines 289-347)

The per-item browser interaction `_get_video_description` is abstracted
by `descOf i` — the description obtained for item `i` (the source maps
every internal failure to `""` already).  The third component of the
result counts URL navigations performed. -/

def descGo (cancel : Nat → Bool) (descOf : Nat → String) :
    List ItemRecord → Nat → List ItemRecord × Bool × Nat
  | [], _ => ([], true, 0)
  | it :: rest, i =>
    if cancel i then (it :: rest, false, 0)
    else
      let it' := { it with description := descOf i }
      let r := descGo cancel descOf rest (i + 1)
      (it' :: r.1, r.2.1, r.2.2 + 1)

/-- The whole enrichment phase: an empty store or a failed driver
re-initialization returns failure before any navigation
(source lines 293-310). -/
def getDescriptionsPhase (items : List ItemRecord) (driverOk : Bool)
    (cancel : Nat → Bool) (descOf : Nat → String) :
    List ItemRecord × Bool × Nat :=
  if items.isEmpty then (items, false, 0)
  else if !driverOk then (items, false, 0)
  else descGo cancel descOf items 0

/-! ## Pipeline Controller (`run_full_process`, source lines 511-578) -/

/-- The discovery retry envelope (source lines 519-554):
`for retry_attempt in range(download_retries + 1)` — note the crawl
retry count reuses the `download_retries` config.  `cancel k` is the
stop flag at the top of trial `k`, `initOk k` whether the WebDriver
came up on trial `k`, and `phase k` the (store, returned bool) of the
scraping phase on trial `k`.  The accumulator carries the trial count,
`scraping_successful`, and `self.scraped_data` (which survives a failed
trial until the next trial overwrites it). -/
def scrapeEnvelopeGo (cancel initOk : Nat → Bool)
    (phase : Nat → List ItemRecord × Bool) :
    Nat → Nat → List ItemRecord → Nat × Bool × List ItemRecord
  | 0, k, data => (k, false, data)
  | fuel + 1, k, data =>
    if cancel k then (k, false, data)
    else if !initOk k then scrapeEnvelopeGo cancel initOk phase fuel (k + 1) data
    else if (phase k).2 then (k + 1, true, (phase k).1)
    else scrapeEnvelopeGo cancel initOk phase fuel (k + 1) (phase k).1

/-- The envelope with its `download_retries + 1` trial budget. -/
def scrapeEnvelope (cancel initOk : Nat → Bool)
    (phase : Nat → List ItemRecord × Bool) (retries : Nat) :
    Nat × Bool × List ItemRecord :=
  scrapeEnvelopeGo cancel initOk phase (retries + 1) 0 []

/-- Observable outcome of one `run_full_process` call: the final store,
which top-level collaborator calls happened, and the two effect counters
of the abstracted collaborators. -/
structure PipelineRun where
  finalItems : List ItemRecord
  scrapeAttempts : Nat
  scrapeOk : Bool
  descTried : Bool
  descOk : Bool
  urlVisits : Nat
  downloadTried : Bool
  dlInvocations : Nat
  savedResults : Bool
  displayedStats : Bool
deriving DecidableEq

/-- Controller tail after a successful Discovery (source lines
562-578): early return on a failed description phase, then the download
phase when the store is non-empty, then result persistence and the
final statistics.  `d` is the triple returned by the enrichment phase. -/
def afterDescriptions (scrapeAttempts : Nat) (oracle : Nat → DlOutcome)
    (retries batchSize : Nat) (d : List ItemRecord × Bool × Nat) : PipelineRun :=
  if !d.2.1 then
    { finalItems := d.1, scrapeAttempts := scrapeAttempts, scrapeOk := true
      descTried := true, descOk := false, urlVisits := d.2.2
      downloadTried := false, dlInvocations := 0
      savedResults := false, displayedStats := true }
  else if !d.1.isEmpty then
    { finalItems := (downloadVideos d.1 oracle retries batchSize).items
      scrapeAttempts := scrapeAttempts, scrapeOk := true
      descTried := true, descOk := true, urlVisits := d.2.2
      downloadTried := true
      dlInvocations := (downloadVideos d.1 oracle retries batchSize).invocations
      savedResults := true, displayedStats := true }
  else
    { finalItems := d.1, scrapeAttempts := scrapeAttempts, scrapeOk := true
      descTried := true, descOk := true, urlVisits := d.2.2
      downloadTried := false, dlInvocations := 0
      savedResults := true, displayedStats := true }

/-- `run_full_process` (source lines 511-578): discovery envelope; on
failure or cancellation only `_display_final_stats` runs; then the
enrichment phase, with the same early exit on failure; then
`_download_videos` when the store is non-empty; finally
`_save_final_results` and `_display_final_stats`.  User cancellation
after the envelope is not modelled (no claim depends on it), so the
flag tests of lines 557 and 566 reduce to the phase results. -/
def runFullProcess (cancel initOk : Nat → Bool)
    (phase : Nat → List ItemRecord × Bool) (retries : Nat)
    (descDriverOk : Bool) (descCancel : Nat → Bool) (descOf : Nat → String)
    (oracle : Nat → DlOutcome) (batchSize : Nat) : PipelineRun :=
  if !(scrapeEnvelope cancel initOk phase retries).2.1 then
    { finalItems := (scrapeEnvelope cancel initOk phase retries).2.2
      scrapeAttempts := (scrapeEnvelope cancel initOk phase retries).1
      scrapeOk := false
      descTried := false, descOk := false, urlVisits := 0
      downloadTried := false, dlInvocations := 0
      savedResults := false, displayedStats := true }
  else
    afterDescriptions (scrapeEnvelope cancel initOk phase retries).1 oracle
      retries batchSize
      (getDescriptionsPhase (scrapeEnvelope cancel initOk phase retries).2.2
        descDriverOk descCancel descOf)

/-! ## C1: deduplication invariant of the Discovery phase -/

/-- The discovery invariant: stored URLs are distinct and every stored
URL is registered in the seen-set. -/
def ScrapeInv (st : ScrapeState) : Prop :=
  (st.scraped_data.map ItemRecord.url).Nodup ∧
  ∀ r ∈ st.scraped_data, r.url ∈ st.urls_found_set

/-- `processElement` either leaves the state alone or appends one record
whose URL was not yet in the seen-set, registering it there. -/
lemma processElement_cases (resolve : String → String) (st : ScrapeState) (e : Element) :
    processElement resolve st e = st ∨
    ∃ u t, u ∉ st.urls_found_set ∧
      processElement resolve st e =
        { st with
          scraped_data := st.scraped_data ++ [{ url := u, title := t, description := "", status := "N" }],
          urls_found_set := u :: st.urls_found_set } := by
  cases hh : e.href with
  | none => left; simp [processElement, hh]
  | some href =>
    by_cases he : href.isEmpty = true
    · left; simp [processElement, hh, he]
    · by_cases hc : containsSub href.data "/shorts/".data = true
      · by_cases hm : absoluteHref resolve href ∈ st.urls_found_set
        · left; simp [processElement, hh, he, hc, hm]
        · right
          exact ⟨absoluteHref resolve href, elementTitle e, hm, by
            simp [processElement, hh, he, hc, hm]⟩
      · left; simp [processElement, hh, he, hc]

lemma processElement_inv {resolve : String → String} {st : ScrapeState} {e : Element}
    (h : ScrapeInv st) : ScrapeInv (processElement resolve st e) := by
  obtain ⟨h1, h2⟩ := h
  rcases processElement_cases resolve st e with heq | ⟨u, t, hmem, heq⟩
  · rw [heq]; exact ⟨h1, h2⟩
  · rw [heq]
    refine ⟨?_, ?_⟩
    · rw [List.map_append]
      refine List.Nodup.append h1 (List.nodup_singleton _) ?_
      intro a ha hb
      simp only [List.map_cons, List.map_nil, List.mem_singleton] at hb
      subst hb
      obtain ⟨r, hr, hru⟩ := List.mem_map.mp ha
      exact hmem (hru ▸ h2 r hr)
    · intro r hr
      rcases List.mem_append.mp hr with hold | hnew
      · exact List.mem_cons_of_mem _ (h2 r hold)
      · simp only [List.mem_singleton] at hnew
        subst hnew
        exact List.mem_cons_self _ _

lemma scanElements_inv {resolve : String → String} {es : List Element} :
    ∀ {st : ScrapeState}, ScrapeInv st → ScrapeInv (scanElements resolve es st) := by
  induction es with
  | nil => intro st h; exact h
  | cons e rest ih =>
    intro st h
    exact ih (processElement_inv h)

/-- `ScrapeInv` only reads `scraped_data` and `urls_found_set`, which
`stallUpdated` and `bumped` leave untouched. -/
lemma scrapeIter_inv {resolve : String → String} {feed : Nat → List Element × Int}
    {st : ScrapeState} (h : ScrapeInv st) : ScrapeInv (scrapeIter resolve feed st) := by
  have h2 : ScrapeInv (scanElements resolve (feed st.scroll_count).1 (bumped st)) :=
    scanElements_inv h
  unfold scrapeIter stallUpdated
  split
  · exact h2
  · exact h2

lemma scrapeLoop_inv (resolve : String → String) (target : Nat)
    (feed : Nat → List Element × Int) (cancel : Nat → Bool) :
    ∀ (fuel : Nat) (st : ScrapeState), ScrapeInv st →
      ScrapeInv (scrapeLoop resolve target feed cancel fuel st).1 := by
  intro fuel
  induction fuel with
  | zero => intro st h; exact h
  | succ n ih =>
    intro st h
    rw [scrapeLoop]
    have h2 : ScrapeInv (scrapeIter resolve feed st) := scrapeIter_inv h
    repeat' split
    all_goals first
      | exact h
      | exact h2
      | exact ih _ h2

/-- C1: for every run of the Discovery phase, the `URL Video` fields of
the records appended to `scraped_data` are pairwise distinct when the
phase ends — i.e. any two records at distinct indices carry different
URLs (source lines 242-245: a URL is appended only when absent from the
parallel seen-set). -/
theorem discovery_urls_pairwise_distinct (resolve : String → String) (target : Nat)
    (feed : Nat → List Element × Int) (cancel : Nat → Bool) (fuel : Nat)
    (initialHeight : Int) :
    ((scrapeShortsDataPhase resolve target feed cancel fuel
        initialHeight).1.scraped_data).Pairwise fun a b => a.url ≠ b.url := by
  have h := scrapeLoop_inv resolve target feed cancel fuel (initScrapeState initialHeight)
    ⟨by simp [initScrapeState], by simp [initScrapeState]⟩
  have h1 := h.1
  rw [List.Nodup, List.pairwise_map] at h1
  exact h1

/-! ## C2: the consecutive-stall counter terminates Discovery -/

@[simp] lemma bumped_scroll (st : ScrapeState) :
    (bumped st).scroll_count = st.scroll_count + 1 := rfl

@[simp] lemma bumped_set (st : ScrapeState) :
    (bumped st).urls_found_set = st.urls_found_set := rfl

@[simp] lemma bumped_no_new (st : ScrapeState) :
    (bumped st).no_new_urls_consecutive_scrolls = st.no_new_urls_consecutive_scrolls := rfl

@[simp] lemma bumped_height (st : ScrapeState) :
    (bumped st).last_height = st.last_height := rfl

@[simp] lemma setHeight_scroll (st : ScrapeState) (h : Int) :
    ({ st with last_height := h } : ScrapeState).scroll_count = st.scroll_count := rfl

@[simp] lemma setHeight_no_new (st : ScrapeState) (h : Int) :
    ({ st with last_height := h } : ScrapeState).no_new_urls_consecutive_scrolls =
      st.no_new_urls_consecutive_scrolls := rfl

@[simp] lemma setHeight_height (st : ScrapeState) (h : Int) :
    ({ st with last_height := h } : ScrapeState).last_height = h := rfl

/-- One element's processing never touches the three loop counters. -/
lemma processElement_counters (resolve : String → String) (st : ScrapeState) (e : Element) :
    (processElement resolve st e).scroll_count = st.scroll_count ∧
    (processElement resolve st e).no_new_urls_consecutive_scrolls =
      st.no_new_urls_consecutive_scrolls ∧
    (processElement resolve st e).last_height = st.last_height := by
  rcases processElement_cases resolve st e with heq | ⟨u, t, _, heq⟩ <;>
    rw [heq] <;> exact ⟨rfl, rfl, rfl⟩

/-- Neither does a whole scan. -/
lemma scanElements_counters (resolve : String → String) (es : List Element) :
    ∀ st : ScrapeState,
      (scanElements resolve es st).scroll_count = st.scroll_count ∧
      (scanElements resolve es st).no_new_urls_consecutive_scrolls =
        st.no_new_urls_consecutive_scrolls ∧
      (scanElements resolve es st).last_height = st.last_height := by
  induction es with
  | nil => intro st; exact ⟨rfl, rfl, rfl⟩
  | cons e rest ih =>
    intro st
    have h1 := processElement_counters resolve st e
    have h2 := ih (processElement resolve st e)
    exact ⟨h2.1.trans h1.1, h2.2.1.trans h1.2.1, h2.2.2.trans h1.2.2⟩

/-- A scroll iteration whose scan adds no URL increments the stall
counter (source line 250), bumps the scroll counter and keeps the
last height. -/
lemma scrapeIter_stalled {resolve : String → String} {feed : Nat → List Element × Int}
    {st : ScrapeState}
    (hlen : (scanElements resolve (feed st.scroll_count).1 (bumped st)).urls_found_set.length
      = (bumped st).urls_found_set.length) :
    (scrapeIter resolve feed st).scroll_count = st.scroll_count + 1 ∧
    (scrapeIter resolve feed st).no_new_urls_consecutive_scrolls =
      st.no_new_urls_consecutive_scrolls + 1 ∧
    (scrapeIter resolve feed st).last_height = st.last_height := by
  have hc := scanElements_counters resolve (feed st.scroll_count).1 (bumped st)
  unfold scrapeIter stallUpdated
  rw [if_neg (by rw [hlen]; simp)]
  refine ⟨?_, ?_, ?_⟩
  · show (scanElements resolve (feed st.scroll_count).1 (bumped st)).scroll_count =
      st.scroll_count + 1
    rw [hc.1]; simp
  · show (scanElements resolve (feed st.scroll_count).1
        (bumped st)).no_new_urls_consecutive_scrolls + 1 =
      st.no_new_urls_consecutive_scrolls + 1
    rw [hc.2.1]; simp
  · show (scanElements resolve (feed st.scroll_count).1 (bumped st)).last_height =
      st.last_height
    rw [hc.2.2]; simp

/-- Stall progression: with no cancellation, target 0, a feed whose
scans never add a URL and whose height keeps strictly growing, the loop
ends via the stall limit after exactly `10 - counter` more iterations. -/
lemma scrapeLoop_stall (resolve : String → String)
    (feed : Nat → List Element × Int) (cancel : Nat → Bool)
    (hcancel : ∀ k, cancel k = false)
    (hscan : ∀ k s, (scanElements resolve (feed k).1 s).urls_found_set.length
      = s.urls_found_set.length)
    (hmono : ∀ k, (feed k).2 < (feed (k + 1)).2) :
    ∀ (fuel : Nat) (st : ScrapeState),
      st.no_new_urls_consecutive_scrolls < 10 →
      st.last_height < (feed st.scroll_count).2 →
      10 - st.no_new_urls_consecutive_scrolls ≤ fuel →
      (scrapeLoop resolve 0 feed cancel fuel st).2 = some true ∧
      (scrapeLoop resolve 0 feed cancel fuel st).1.scroll_count =
        st.scroll_count + (10 - st.no_new_urls_consecutive_scrolls) := by
  intro fuel
  induction fuel with
  | zero => intro st h10 hh hf; omega
  | succ n ih =>
    intro st h10 hh hf
    have hiter := @scrapeIter_stalled resolve feed st
      (hscan st.scroll_count (bumped st))
    rw [scrapeLoop]
    rw [if_neg (by simp [hcancel])]
    rw [if_neg (by simp)]
    rw [if_neg (by rw [hiter.2.2]; omega)]
    by_cases h9 : 10 ≤ (scrapeIter resolve feed st).no_new_urls_consecutive_scrolls
    · rw [if_pos h9]
      refine ⟨rfl, ?_⟩
      rw [hiter.2.1] at h9
      simp only [setHeight_scroll]
      rw [hiter.1]
      omega
    · rw [if_neg h9]
      rw [hiter.2.1] at h9
      have hrec := ih { scrapeIter resolve feed st with last_height := (feed st.scroll_count).2 }
        (by simp only [setHeight_no_new]; rw [hiter.2.1]; omega)
        (by simp only [setHeight_height, setHeight_scroll]; rw [hiter.1]; exact hmono st.scroll_count)
        (by simp only [setHeight_no_new]; rw [hiter.2.1]; omega)
      refine ⟨hrec.1, ?_⟩
      rw [hrec.2]
      simp only [setHeight_scroll, setHeight_no_new]
      rw [hiter.1, hiter.2.1]
      omega

/-- C2: in the Discovery loop the consecutive-no-new-items counter is
incremented on every iteration adding zero new URLs and reset otherwise
(definition `stallUpdated`, source lines 247-250), and once it reaches
10 the loop terminates even though the scroll height keeps changing
(source lines 267-274): for a feed that yields only previously-seen
items on every iteration the phase ends successfully with exactly 10
scroll iterations performed — an 11th stalled iteration never runs. -/
theorem discovery_stops_at_ten_stalls (resolve : String → String)
    (feed : Nat → List Element × Int) (cancel : Nat → Bool) (initialHeight : Int)
    (hcancel : ∀ k, cancel k = false)
    (hscan : ∀ k s, (scanElements resolve (feed k).1 s).urls_found_set.length
      = s.urls_found_set.length)
    (hfirst : initialHeight < (feed 0).2)
    (hmono : ∀ k, (feed k).2 < (feed (k + 1)).2)
    (fuel : Nat) (hfuel : 10 ≤ fuel) :
    (scrapeShortsDataPhase resolve 0 feed cancel fuel initialHeight).2 = some true ∧
    (scrapeShortsDataPhase resolve 0 feed cancel fuel initialHeight).1.scroll_count = 10 := by
  have h := scrapeLoop_stall resolve feed cancel hcancel hscan hmono fuel
    (initScrapeState initialHeight)
    (by simp [initScrapeState])
    (by simpa [initScrapeState] using hfirst)
    (by simpa [initScrapeState] using hfuel)
  simpa [scrapeShortsDataPhase, initScrapeState] using h

/-- A 12-iteration feed that never yields a qualifying item while its
height keeps growing. -/
def stallFeed : Nat → List Element × Int := fun k => ([], (k : Int) + 1)

theorem discovery_stops_at_ten_stalls_witness :
    (scrapeShortsDataPhase (fun s => s) 0 stallFeed (fun _ => false) 12 0).2 = some true ∧
    (scrapeShortsDataPhase (fun s => s) 0 stallFeed (fun _ => false) 12 0).1.scroll_count = 10 :=
  discovery_stops_at_ten_stalls (fun s => s) stallFeed (fun _ => false) 0
    (fun _ => rfl) (fun _ _ => rfl) (by norm_num [stallFeed])
    (fun k => by simp only [stallFeed]; omega) 12 (by norm_num)

/-! ## C3: the orchestrator is idempotent on an all-Downloaded store -/

lemma resetItems_of_allD : ∀ (items : List ItemRecord),
    (∀ it ∈ items, it.status = "D") → resetItems items = items
  | [], _ => rfl
  | it :: rest, h => by
    simp only [resetItems, List.map_cons]
    rw [if_pos (h it (List.mem_cons_self it rest))]
    have hrec := resetItems_of_allD rest fun x hx => h x (List.mem_cons_of_mem _ hx)
    simp only [resetItems] at hrec
    rw [hrec]

lemma pendingIdxs_of_allD {items : List ItemRecord}
    (h : ∀ it ∈ items, it.status = "D") : pendingIdxs items = [] := by
  unfold pendingIdxs
  rw [List.filter_eq_nil_iff]
  intro i hi
  cases hg : items.get? i with
  | none => simp
  | some it =>
    have hmem : it ∈ items := List.get?_mem hg
    have hd := h it hmem
    simp [hd]

/-- C3: if every item of the store already has status `D` when
`_download_videos` starts, the phase performs zero yt-dlp subprocess
invocations and leaves every item (in particular every status)
unchanged: the reset loop of lines 367-369 keeps `D` items, and the
first pass finds no pending item and stops (lines 379-385). -/
theorem download_idempotent_on_downloaded (items : List ItemRecord)
    (oracle : Nat → DlOutcome) (downloadRetries batchSize : Nat)
    (h : ∀ it ∈ items, it.status = "D") :
    (downloadVideos items oracle downloadRetries batchSize).invocations = 0 ∧
    (downloadVideos items oracle downloadRetries batchSize).items = items := by
  unfold downloadVideos
  by_cases he : items.isEmpty
  · rw [if_pos he]; exact ⟨rfl, rfl⟩
  · rw [if_neg he, resetItems_of_allD items h, runPasses]
    rw [if_neg (by simp)]
    rw [@pendingIdxs_of_allD items h]
    simp

/-- A store whose single record is already downloaded. -/
def sampleDownloaded : ItemRecord :=
  { url := "https://www.youtube.com/shorts/abc", title := "t"
    description := "", status := "D" }

theorem download_idempotent_on_downloaded_witness :
    (∀ it ∈ [sampleDownloaded], it.status = "D") ∧
    (downloadVideos [sampleDownloaded] (fun _ => DlOutcome.success) 3 20).invocations = 0 ∧
    (downloadVideos [sampleDownloaded] (fun _ => DlOutcome.success) 3 20).items =
      [sampleDownloaded] :=
  ⟨by decide,
    download_idempotent_on_downloaded [sampleDownloaded]
      (fun _ => DlOutcome.success) 3 20 (by decide)⟩

/-! ## C6: batch partition sizes -/

lemma chunks_eq_nil_iff {α : Type} (B : Nat) (l : List α) :
    chunks B l = [] ↔ l = [] := by
  cases l with
  | nil => simp
  | cons x xs => simp [chunks_cons]

lemma chunks_length {α : Type} (B : Nat) (hB : 0 < B) :
    ∀ l : List α, (chunks B l).length = (l.length + B - 1) / B
  | [] => by simp [Nat.div_eq_of_lt, hB]
  | x :: xs => by
    have ih := chunks_length B hB (xs.drop (B - 1))
    rw [chunks_cons]
    rw [List.length_cons, ih, List.length_drop, List.length_cons]
    have hr : (xs.length + 1 + B - 1) / B = xs.length / B + 1 := by
      have : xs.length + 1 + B - 1 = xs.length + B := by omega
      rw [this, Nat.add_div_right _ hB]
    rw [hr]
    by_cases hc : B ≤ xs.length
    · have h1 : xs.length - (B - 1) + B - 1 = xs.length := by omega
      rw [h1]
    · have h1 : xs.length - (B - 1) = 0 := by omega
      rw [h1]
      have h2 : (0 + B - 1) / B = 0 := Nat.div_eq_of_lt (by omega)
      have h3 : xs.length / B = 0 := Nat.div_eq_of_lt (by omega)
      rw [h2, h3]
termination_by l => l.length
decreasing_by simp only [List.length_cons, List.length_drop]; omega

lemma chunks_get?_full {α : Type} (B : Nat) (hB : 0 < B) :
    ∀ (l : List α) (i : Nat) (ch : List α),
      (chunks B l).get? i = some ch → i + 1 < (chunks B l).length → ch.length = B
  | [] => by intro i ch h _; simp at h
  | x :: xs => by
    have ih := chunks_get?_full B hB (xs.drop (B - 1))
    intro i ch h hlt
    rw [chunks_cons] at h hlt
    cases i with
    | zero =>
      simp only [List.get?_cons_zero, Option.some.injEq] at h
      subst h
      rw [List.length_cons] at hlt
      have hne : chunks B (xs.drop (B - 1)) ≠ [] := by
        intro hnil
        rw [hnil] at hlt
        simp at hlt
      have hne' : xs.drop (B - 1) ≠ [] :=
        fun hnil => hne ((chunks_eq_nil_iff B _).mpr hnil)
      have hlen : B - 1 < xs.length := by
        by_contra hcon
        exact hne' (List.drop_eq_nil_of_le (by omega))
      simp only [List.length_cons, List.length_take]
      omega
    | succ i' =>
      simp only [List.get?_cons_succ] at h
      rw [List.length_cons] at hlt
      exact ih i' ch h (by omega)
termination_by l => l.length
decreasing_by simp only [List.length_cons, List.length_drop]; omega

lemma chunks_getLast {α : Type} (B : Nat) (hB : 0 < B) :
    ∀ l : List α, l ≠ [] →
      ∃ ch, (chunks B l).getLast? = some ch ∧
        ch.length = if l.length % B = 0 then B else l.length % B
  | [] => by intro h; exact absurd rfl h
  | x :: xs => by
    have ih := chunks_getLast B hB (xs.drop (B - 1))
    intro _
    rw [chunks_cons]
    by_cases hd : xs.drop (B - 1) = []
    · rw [hd]
      have hxs : xs.length ≤ B - 1 := by
        have := List.drop_eq_nil_iff.mp hd
        omega
      refine ⟨x :: xs.take (B - 1), ?_, ?_⟩
      · simp
      · simp only [List.length_cons, List.length_take, List.length_cons]
        by_cases heq : xs.length + 1 = B
        · have hmod : (xs.length + 1) % B = 0 := by rw [heq, Nat.mod_self]
          rw [if_pos hmod]
          omega
        · have hlt : xs.length + 1 < B := by omega
          have hmod : (xs.length + 1) % B = xs.length + 1 := Nat.mod_eq_of_lt hlt
          rw [hmod, if_neg (by omega)]
          omega
    · obtain ⟨ch, hch, hlen⟩ := ih hd
      have hne : chunks B (xs.drop (B - 1)) ≠ [] :=
        fun h => hd ((chunks_eq_nil_iff B _).mp h)
      refine ⟨ch, ?_, ?_⟩
      · cases hc : chunks B (xs.drop (B - 1)) with
        | nil => exact absurd hc hne
        | cons c cs =>
          rw [List.getLast?_cons_cons]
          rw [hc] at hch
          exact hch
      · have hblen : B - 1 < xs.length := by
          by_contra hcon
          exact hd (List.drop_eq_nil_of_le (by omega))
        rw [List.length_drop] at hlen
        have hmodeq : (xs.length + 1) % B = (xs.length - (B - 1)) % B := by
          have h1 : xs.length + 1 = (xs.length - (B - 1)) + B := by omega
          rw [h1, Nat.add_mod_right]
        rw [List.length_cons, hmodeq]
        exact hlen
termination_by l => l.length
decreasing_by simp only [List.length_cons, List.length_drop]; omega

/-- Concatenating the batches gives back the pending list: the slices
`l[i : i + B]` for `i in range(0, len(l), B)` tile `l`. -/
lemma chunks_flatten {α : Type} (B : Nat) :
    ∀ l : List α, (chunks B l).flatten = l
  | [] => by simp
  | x :: xs => by
    have ih := chunks_flatten B (xs.drop (B - 1))
    rw [chunks_cons]
    simp only [List.flatten_cons, ih]
    rw [List.cons_append, List.take_append_drop]
termination_by l => l.length
decreasing_by simp only [List.length_cons, List.length_drop]; omega

/-- C6: in each download pass, partitioning the `N` pending items into
batches of the configured size `B` (source lines 389-395) produces
exactly `ceil(N/B) = (N + B - 1) / B` batches, every batch before the
last of size exactly `B`, and the last of size `N mod B` when `B` does
not divide `N` and of size `B` when it does. -/
theorem batch_partition_sizes (items : List ItemRecord) (B : Nat) (hB : 0 < B) :
    (chunks B (pendingIdxs items)).length = ((pendingIdxs items).length + B - 1) / B ∧
    (∀ i ch, (chunks B (pendingIdxs items)).get? i = some ch →
      i + 1 < (chunks B (pendingIdxs items)).length → ch.length = B) ∧
    (pendingIdxs items ≠ [] →
      ∃ ch, (chunks B (pendingIdxs items)).getLast? = some ch ∧
        ch.length = if (pendingIdxs items).length % B = 0 then B
          else (pendingIdxs items).length % B) :=
  ⟨chunks_length B hB (pendingIdxs items),
    fun i ch h hlt => chunks_get?_full B hB (pendingIdxs items) i ch h hlt,
    fun hne => chunks_getLast B hB (pendingIdxs items) hne⟩

/-- A pending store of 5 items with batch size 2: 3 batches sized 2,2,1. -/
def samplePending (k : Nat) : ItemRecord :=
  { url := String.mk (natChars k), title := "", description := "", status := "N" }

theorem batch_partition_sizes_witness :
    0 < 2 ∧
    (chunks 2 (pendingIdxs (List.map samplePending (List.range 5)))).length =
      ((pendingIdxs (List.map samplePending (List.range 5))).length + 2 - 1) / 2 ∧
    (pendingIdxs (List.map samplePending (List.range 5)) ≠ [] →
      ∃ ch, (chunks 2 (pendingIdxs (List.map samplePending
          (List.range 5)))).getLast? = some ch ∧
        ch.length = if (pendingIdxs (List.map samplePending
            (List.range 5))).length % 2 = 0 then 2
          else (pendingIdxs (List.map samplePending (List.range 5))).length % 2) :=
  ⟨by decide,
    (batch_partition_sizes (List.map samplePending (List.range 5)) 2 (by decide)).1,
    (batch_partition_sizes (List.map samplePending (List.range 5)) 2 (by decide)).2.2⟩

/-! ## C7: a missing downloader halts the whole orchestrator -/

/-- After the `k`-th subprocess invocation would report a missing
downloader: no more than `k + 1` invocations ever happen, and if the
`k`-th one did happen the stop flag is set and the distinctive
downloader-missing error entry has been recorded. -/
def FnfHalted (k : Nat) (st : DlState) : Prop :=
  st.invocations ≤ k + 1 ∧
  (st.invocations = k + 1 → st.stopFlag = true ∧
    ∃ e ∈ st.errors, e.message = downloaderMissingMsg)

lemma runItem_fnf_halted {oracle : Nat → DlOutcome} {k : Nat}
    (hk : oracle k = DlOutcome.fileNotFound) {st : DlState} (idx : Nat)
    (hflag : st.stopFlag = false) (hg : FnfHalted k st) :
    FnfHalted k (runItem oracle st idx) := by
  obtain ⟨h1, h2⟩ := hg
  have hle : st.invocations ≤ k := by
    by_cases hcase : st.invocations = k + 1
    · rw [(h2 hcase).1] at hflag; cases hflag
    · omega
  by_cases heq : st.invocations = k
  · simp only [runItem, heq, hk]
    refine ⟨by show k + 1 ≤ k + 1; omega, fun _ => ⟨rfl, ?_⟩⟩
    refine ⟨mkDlError st.items idx downloaderMissingMsg, ?_, rfl⟩
    exact List.mem_append_right _ (List.mem_singleton.mpr rfl)
  · have hlt : st.invocations < k := by omega
    unfold runItem
    cases ho : oracle st.invocations <;>
      exact ⟨by show st.invocations + 1 ≤ k + 1; omega,
        fun hcon => by
          have : st.invocations + 1 = k + 1 := hcon
          omega⟩

lemma runBatch_fnf_halted {oracle : Nat → DlOutcome} {k : Nat}
    (hk : oracle k = DlOutcome.fileNotFound) :
    ∀ (b : List Nat) (st : DlState), FnfHalted k st →
      FnfHalted k (runBatch oracle st b) := by
  intro b
  induction b with
  | nil => exact fun st hg => hg
  | cons idx rest ih =>
    intro st hg
    rw [runBatch]
    by_cases hflag : st.stopFlag = true
    · rw [if_pos hflag]; exact hg
    · rw [if_neg hflag]
      exact ih _ (runItem_fnf_halted hk idx (by simpa using hflag) hg)

lemma runBatches_fnf_halted {oracle : Nat → DlOutcome} {k : Nat}
    (hk : oracle k = DlOutcome.fileNotFound) :
    ∀ (bs : List (List Nat)) (st : DlState), FnfHalted k st →
      FnfHalted k (runBatches oracle st bs) := by
  intro bs
  induction bs with
  | nil => exact fun st hg => hg
  | cons b rest ih =>
    intro st hg
    rw [runBatches]
    have hb := runBatch_fnf_halted hk b st hg
    split
    · exact hg
    · split
      · exact hb
      · exact ih _ hb

lemma runPasses_fnf_halted {oracle : Nat → DlOutcome} {k batchSize : Nat}
    (hk : oracle k = DlOutcome.fileNotFound) :
    ∀ (fuel : Nat) (st : DlState), FnfHalted k st →
      FnfHalted k (runPasses oracle batchSize fuel st) := by
  intro fuel
  induction fuel with
  | zero => exact fun st hg => hg
  | succ n ih =>
    intro st hg
    rw [runPasses]
    split
    · exact hg
    · split
      · exact hg
      · unfold passesAfter
        have hb := runBatches_fnf_halted hk
          (chunks batchSize (pendingIdxs st.items)) st hg
        split
        · exact hb
        · split
          · exact hb
          · exact ih _ hb

/-- C7: if the yt-dlp subprocess call raises `FileNotFoundError` at
invocation `k`, the orchestrator stops entirely — at most `k + 1`
invocations ever happen, so no remaining batch or retry pass attempts
a download — and, when that invocation did happen, the shared stop flag
has been set and the distinct downloader-missing error entry recorded
(source lines 469-474 and the flag checks at lines 390, 403, 491, 494). -/
theorem downloader_missing_halts (items : List ItemRecord) (oracle : Nat → DlOutcome)
    (downloadRetries batchSize k : Nat) (hk : oracle k = DlOutcome.fileNotFound) :
    (downloadVideos items oracle downloadRetries batchSize).invocations ≤ k + 1 ∧
    ((downloadVideos items oracle downloadRetries batchSize).invocations = k + 1 →
      (downloadVideos items oracle downloadRetries batchSize).stopFlag = true ∧
      ∃ e ∈ (downloadVideos items oracle downloadRetries batchSize).errors,
        e.message = downloaderMissingMsg) := by
  unfold downloadVideos
  split
  · exact ⟨by show 0 ≤ k + 1; omega, fun hcon => by
      have : 0 = k + 1 := hcon
      omega⟩
  · exact runPasses_fnf_halted hk _ _
      ⟨by show 0 ≤ k + 1; omega, fun hcon => by
        have : 0 = k + 1 := hcon
        omega⟩

/-- A store with one yet-undownloaded record. -/
def sampleNotDownloaded : ItemRecord :=
  { url := "https://www.youtube.com/shorts/xyz", title := "t"
    description := "", status := "N" }

theorem downloader_missing_halts_witness :
    (fun _ => DlOutcome.fileNotFound) 0 = DlOutcome.fileNotFound ∧
    (downloadVideos [sampleNotDownloaded]
      (fun _ => DlOutcome.fileNotFound) 3 20).invocations ≤ 0 + 1 :=
  ⟨rfl, (downloader_missing_halts [sampleNotDownloaded]
    (fun _ => DlOutcome.fileNotFound) 3 20 0 rfl).1⟩

/-! ## C4: status transitions of the store -/

/-- The transitively-closed status relation allowed by the claim:
unchanged, `N` to `D`, `N` to `E`, or `E` to `D`. -/
def allowedReach (a b : String) : Prop :=
  a = b ∨ (a = "N" ∧ b = "D") ∨ (a = "N" ∧ b = "E") ∨ (a = "E" ∧ b = "D")

lemma allowedReach_refl (a : String) : allowedReach a a := Or.inl rfl

lemma allowedReach_trans {a b c : String}
    (h1 : allowedReach a b) (h2 : allowedReach b c) : allowedReach a c := by
  rcases h1 with h | ⟨ha, hb⟩ | ⟨ha, hb⟩ | ⟨ha, hb⟩
  · exact h ▸ h2
  · subst ha; subst hb
    rcases h2 with h | ⟨h, _⟩ | ⟨h, _⟩ | ⟨h, _⟩
    · exact h ▸ Or.inr (Or.inl ⟨rfl, rfl⟩)
    · exact absurd h (by decide)
    · exact absurd h (by decide)
    · exact absurd h (by decide)
  · subst ha; subst hb
    rcases h2 with h | ⟨h, _⟩ | ⟨h, _⟩ | ⟨h, hc⟩
    · exact h ▸ Or.inr (Or.inr (Or.inl ⟨rfl, rfl⟩))
    · exact absurd h (by decide)
    · exact absurd h (by decide)
    · exact hc ▸ Or.inr (Or.inl ⟨rfl, rfl⟩)
  · subst ha; subst hb
    rcases h2 with h | ⟨h, _⟩ | ⟨h, _⟩ | ⟨h, _⟩
    · exact h ▸ Or.inr (Or.inr (Or.inr ⟨rfl, rfl⟩))
    · exact absurd h (by decide)
    · exact absurd h (by decide)
    · exact absurd h (by decide)

/-- `D` is terminal for the allowed relation. -/
lemma allowedReach_of_D {b : String} (h : allowedReach "D" b) : b = "D" := by
  rcases h with h | ⟨h, _⟩ | ⟨h, _⟩ | ⟨h, _⟩
  · exact h.symm
  · exact absurd h (by decide)
  · exact absurd h (by decide)
  · exact absurd h (by decide)

/-- Pointwise lift of `allowedReach` to optional records; entries exist
on both sides or on neither. -/
def optReach : Option ItemRecord → Option ItemRecord → Prop
  | some a, some b => allowedReach a.status b.status
  | none, none => True
  | _, _ => False

lemma optReach_refl (a : Option ItemRecord) : optReach a a := by
  cases a with
  | none => trivial
  | some it => exact allowedReach_refl it.status

lemma optReach_trans {a b c : Option ItemRecord}
    (h1 : optReach a b) (h2 : optReach b c) : optReach a c := by
  cases a <;> cases b <;> cases c <;> simp only [optReach] at *
  exact allowedReach_trans h1 h2

/-- Every store position evolves along the allowed relation. -/
def Reach (a b : List ItemRecord) : Prop := ∀ i, optReach (a.get? i) (b.get? i)

lemma Reach_refl (a : List ItemRecord) : Reach a a := fun _ => optReach_refl _

lemma Reach_trans {a b c : List ItemRecord} (h1 : Reach a b) (h2 : Reach b c) :
    Reach a c := fun i => optReach_trans (h1 i) (h2 i)

lemma updateAt_get?_self {α : Type} :
    ∀ (l : List α) (i : Nat) (f : α → α), (updateAt l i f).get? i = (l.get? i).map f
  | [], i, f => by cases i <;> rfl
  | x :: xs, 0, f => rfl
  | x :: xs, n + 1, f => by
    simp only [updateAt, List.get?_cons_succ]
    exact updateAt_get?_self xs n f

lemma updateAt_get?_ne {α : Type} :
    ∀ (l : List α) (i j : Nat) (f : α → α), j ≠ i →
      (updateAt l i f).get? j = l.get? j
  | [], _, _, _, _ => rfl
  | x :: xs, 0, 0, f, h => absurd rfl h
  | x :: xs, 0, j + 1, f, h => rfl
  | x :: xs, i + 1, 0, f, h => rfl
  | x :: xs, i + 1, j + 1, f, h => by
    simp only [updateAt, List.get?_cons_succ]
    exact updateAt_get?_ne xs i j f fun hc => h (by omega)

/-- Membership in the pending list means the pass-start status is `N`
or `E`. -/
def statusNE (pass : List ItemRecord) (idx : Nat) : Prop :=
  match pass.get? idx with
  | some it => it.status = "N" ∨ it.status = "E"
  | none => False

lemma pendingIdxs_statusNE {items : List ItemRecord} {idx : Nat}
    (h : idx ∈ pendingIdxs items) : statusNE items idx := by
  unfold pendingIdxs at h
  have hp := List.of_mem_filter h
  unfold statusNE
  cases hg : items.get? idx with
  | none => rw [hg] at hp; simp at hp
  | some it =>
    rw [hg] at hp
    simp only [Bool.or_eq_true, decide_eq_true_eq] at hp
    exact hp

lemma pendingIdxs_nodup (items : List ItemRecord) : (pendingIdxs items).Nodup :=
  (List.nodup_range _).filter _

/-- One subprocess attempt either leaves the store alone (the
`FileNotFoundError` arm) or writes `D` or `E` at its own index. -/
lemma runItem_items (oracle : Nat → DlOutcome) (st : DlState) (idx : Nat) :
    (runItem oracle st idx).items = st.items ∨
    (runItem oracle st idx).items = updateAt st.items idx (withStatus "D") ∨
    (runItem oracle st idx).items = updateAt st.items idx (withStatus "E") := by
  unfold runItem
  cases oracle st.invocations with
  | success => exact Or.inr (Or.inl rfl)
  | calledProcessError msg => exact Or.inr (Or.inr rfl)
  | fileNotFound => exact Or.inl rfl
  | timedOut => exact Or.inr (Or.inr rfl)
  | otherError msg => exact Or.inr (Or.inr rfl)

lemma statusNE_reach_D {pass : List ItemRecord} {idx : Nat} (h : statusNE pass idx) :
    ∀ it, pass.get? idx = some it → allowedReach it.status "D" := by
  intro it hg
  unfold statusNE at h
  rw [hg] at h
  rcases h with h | h
  · exact Or.inr (Or.inl ⟨h, rfl⟩)
  · exact Or.inr (Or.inr (Or.inr ⟨h, rfl⟩))

lemma statusNE_reach_E {pass : List ItemRecord} {idx : Nat} (h : statusNE pass idx) :
    ∀ it, pass.get? idx = some it → allowedReach it.status "E" := by
  intro it hg
  unfold statusNE at h
  rw [hg] at h
  rcases h with h | h
  · exact Or.inr (Or.inr (Or.inl ⟨h, rfl⟩))
  · exact Or.inl h

lemma reach_update {pass cur : List ItemRecord} {idx : Nat} {s : String}
    (hr : Reach pass cur)
    (hcur : cur.get? idx = pass.get? idx)
    (hok : ∀ it, pass.get? idx = some it → allowedReach it.status s) :
    Reach pass (updateAt cur idx (withStatus s)) := by
  intro i
  by_cases hij : i = idx
  · subst hij
    rw [updateAt_get?_self, hcur]
    cases hg : pass.get? i with
    | none => exact trivial
    | some it => exact hok it hg
  · rw [updateAt_get?_ne _ _ _ _ hij]
    exact hr i

lemma agree_update {cur pass : List ItemRecord} {idx : Nat} {f : ItemRecord → ItemRecord}
    {out : List Nat} (hnm : idx ∉ out)
    (ha : ∀ j ∈ out, cur.get? j = pass.get? j) :
    ∀ j ∈ out, (updateAt cur idx f).get? j = pass.get? j := by
  intro j hj
  rw [updateAt_get?_ne _ _ _ _ fun hc => hnm (by rw [← hc]; exact hj)]
  exact ha j hj

/-- Batch invariant: processing a batch keeps every position inside the
allowed relation from the pass-start store, and leaves the positions of
later batches untouched. -/
lemma runBatch_reach {oracle : Nat → DlOutcome} (pass : List ItemRecord) :
    ∀ (b out : List Nat) (st : DlState),
      (b ++ out).Nodup →
      (∀ idx ∈ b ++ out, statusNE pass idx) →
      Reach pass st.items →
      (∀ idx ∈ b ++ out, st.items.get? idx = pass.get? idx) →
      Reach pass (runBatch oracle st b).items ∧
      (∀ idx ∈ out, (runBatch oracle st b).items.get? idx = pass.get? idx) := by
  intro b
  induction b with
  | nil =>
    intro out st _ _ hr ha
    exact ⟨hr, fun idx h => ha idx (List.mem_append_right _ h)⟩
  | cons idx rest ih =>
    intro out st hnd hne hr ha
    rw [runBatch]
    split
    · exact ⟨hr, fun j hj => ha j (List.mem_cons_of_mem _ (List.mem_append_right _ hj))⟩
    · have hmemhd : idx ∈ (idx :: rest) ++ out := List.mem_cons_self _ _
      have hcur : st.items.get? idx = pass.get? idx := ha idx hmemhd
      have hidxne : statusNE pass idx := hne idx hmemhd
      have hnotmem : idx ∉ rest ++ out := (List.nodup_cons.mp hnd).1
      have hrest_nd : (rest ++ out).Nodup := (List.nodup_cons.mp hnd).2
      have hne' : ∀ j ∈ rest ++ out, statusNE pass j :=
        fun j hj => hne j (List.mem_cons_of_mem _ hj)
      rcases runItem_items oracle st idx with hit | hit | hit
      · refine ih out _ hrest_nd hne' ?_ ?_
        · rw [hit]; exact hr
        · rw [hit]; exact fun j hj => ha j (List.mem_cons_of_mem _ hj)
      · refine ih out _ hrest_nd hne' ?_ ?_
        · rw [hit]
          exact reach_update hr hcur (statusNE_reach_D hidxne)
        · rw [hit]
          exact agree_update hnotmem fun j hj => ha j (List.mem_cons_of_mem _ hj)
      · refine ih out _ hrest_nd hne' ?_ ?_
        · rw [hit]
          exact reach_update hr hcur (statusNE_reach_E hidxne)
        · rw [hit]
          exact agree_update hnotmem fun j hj => ha j (List.mem_cons_of_mem _ hj)

lemma runBatches_reach {oracle : Nat → DlOutcome} (pass : List ItemRecord) :
    ∀ (bs : List (List Nat)) (st : DlState),
      bs.flatten.Nodup →
      (∀ idx ∈ bs.flatten, statusNE pass idx) →
      Reach pass st.items →
      (∀ idx ∈ bs.flatten, st.items.get? idx = pass.get? idx) →
      Reach pass (runBatches oracle st bs).items := by
  intro bs
  induction bs with
  | nil => intro st _ _ hr _; exact hr
  | cons b rest ih =>
    intro st hnd hne hr ha
    rw [runBatches]
    rw [List.flatten_cons] at hnd hne ha
    split
    · exact hr
    · have hb := @runBatch_reach oracle pass b rest.flatten st hnd hne hr ha
      split
      · exact hb.1
      · exact ih _ (List.Nodup.of_append_right hnd)
          (fun j hj => hne j (List.mem_append_right _ hj)) hb.1 hb.2

lemma runPasses_reach (oracle : Nat → DlOutcome) (batchSize : Nat) :
    ∀ (fuel : Nat) (st : DlState),
      Reach st.items (runPasses oracle batchSize fuel st).items := by
  intro fuel
  induction fuel with
  | zero => exact fun st => Reach_refl _
  | succ n ih =>
    intro st
    rw [runPasses]
    split
    · exact Reach_refl _
    · split
      · exact Reach_refl _
      · unfold passesAfter
        have hb : Reach st.items
            (runBatches oracle st (chunks batchSize (pendingIdxs st.items))).items := by
          apply runBatches_reach st.items
          · rw [chunks_flatten]; exact pendingIdxs_nodup _
          · intro idx hidx
            rw [chunks_flatten] at hidx
            exact pendingIdxs_statusNE hidx
          · exact Reach_refl _
          · exact fun idx _ => rfl
        split
        · exact hb
        · split
          · exact hb
          · exact Reach_trans hb (ih _)

lemma withStatus_self {it : ItemRecord} {s : String} (h : it.status = s) :
    ({ it with status := s } : ItemRecord) = it := by
  cases it
  simp_all

/-- The reset loop is the identity when no item is in state `E` —
which holds at the start of every run: Discovery creates items as `N`
and Enrichment never touches the status field. -/
lemma resetItems_of_ND : ∀ (items : List ItemRecord),
    (∀ it ∈ items, it.status = "N" ∨ it.status = "D") → resetItems items = items
  | [], _ => rfl
  | it :: rest, h => by
    simp only [resetItems, List.map_cons]
    have hrec := resetItems_of_ND rest fun x hx => h x (List.mem_cons_of_mem _ hx)
    simp only [resetItems] at hrec
    rw [hrec]
    rcases h it (List.mem_cons_self it rest) with hN | hD
    · rw [if_neg (by rw [hN]; decide), withStatus_self hN]
    · rw [if_pos hD]

/-- C4: throughout a run, every item's status field only ever moves
along `N to D`, `N to E`, or `E to D` (or stays put), and a `D` status
is never changed afterwards.  Items enter the download phase as `N` or
(on resume semantics) `D` — Discovery creates them as `N` (line 243)
and Enrichment only writes descriptions — and every status write of
`_download_videos` (lines 367-369, 461, 468, 478, 482) is one allowed
step on an item that was pending (`N` or `E`) at the start of its pass. -/
theorem download_status_transitions (items : List ItemRecord) (oracle : Nat → DlOutcome)
    (downloadRetries batchSize : Nat)
    (hinit : ∀ it ∈ items, it.status = "N" ∨ it.status = "D") :
    ∀ i it it', items.get? i = some it →
      (downloadVideos items oracle downloadRetries batchSize).items.get? i = some it' →
      (it'.status = it.status ∨ (it.status = "N" ∧ it'.status = "D") ∨
        (it.status = "N" ∧ it'.status = "E") ∨ (it.status = "E" ∧ it'.status = "D")) ∧
      (it.status = "D" → it'.status = "D") := by
  have hreach : Reach items (downloadVideos items oracle downloadRetries batchSize).items := by
    unfold downloadVideos
    split
    · exact Reach_refl _
    · rw [resetItems_of_ND items hinit]
      exact runPasses_reach oracle batchSize (downloadRetries + 1)
        { items := items, errors := [], stopFlag := false, invocations := 0 }
  intro i it it' hg hg'
  have h := hreach i
  rw [hg, hg'] at h
  simp only [optReach] at h
  refine ⟨?_, ?_⟩
  · rcases h with h | h
    · exact Or.inl h.symm
    · exact Or.inr h
  · intro hD
    rw [hD] at h
    exact allowedReach_of_D h

/-- Downloader that fails its first invocation and succeeds afterwards:
the `N` item goes `N` to `E` on the first pass and `E` to `D` on the
retry pass. -/
def failThenOkOracle : Nat → DlOutcome :=
  fun k => if k = 0 then DlOutcome.calledProcessError "boom" else DlOutcome.success

theorem download_status_transitions_witness :
    ((withStatus "D" sampleNotDownloaded).status = sampleNotDownloaded.status ∨
      (sampleNotDownloaded.status = "N" ∧ (withStatus "D" sampleNotDownloaded).status = "D") ∨
      (sampleNotDownloaded.status = "N" ∧ (withStatus "D" sampleNotDownloaded).status = "E") ∨
      (sampleNotDownloaded.status = "E" ∧ (withStatus "D" sampleNotDownloaded).status = "D")) ∧
    (sampleNotDownloaded.status = "D" → (withStatus "D" sampleNotDownloaded).status = "D") :=
  download_status_transitions [sampleNotDownloaded, sampleDownloaded] failThenOkOracle 3 20
    (by decide) 0 sampleNotDownloaded (withStatus "D" sampleNotDownloaded)
    (by rfl) (by decide)

/-! ## C5: filename sanitization -/

lemma digitChar_alnum {d : Nat} (h : d < 10) : (digitChar d).isAlphanum = true := by
  interval_cases d <;> decide

lemma natChars_alnum : ∀ (n : Nat) (c : Char), c ∈ natChars n → c.isAlphanum = true
  | n, c => by
    rw [natChars]
    split
    · intro h
      rw [List.mem_singleton] at h
      subst h
      exact digitChar_alnum (by omega)
    · intro h
      rcases List.mem_append.mp h with h1 | h1
      · exact natChars_alnum (n / 10) c h1
      · rw [List.mem_singleton] at h1
        subst h1
        exact digitChar_alnum (Nat.mod_lt n (by omega))
termination_by n => n
decreasing_by exact Nat.div_lt_self (by omega) (by omega)

lemma natChars_length_le : ∀ (k n : Nat), n < 10 ^ k → (natChars n).length ≤ k + 1
  | k, n => by
    rw [natChars]
    split
    · intro _; simp
    · intro hn
      rename_i h10
      cases k with
      | zero =>
        rw [pow_zero] at hn
        omega
      | succ k' =>
        have hdiv : n / 10 < 10 ^ k' := by
          apply Nat.div_lt_of_lt_mul
          rw [pow_succ] at hn
          omega
        have hrec := natChars_length_le k' (n / 10) hdiv
        simp only [List.length_append, List.length_singleton]
        omega

lemma mem_of_mem_stripChars {l : List Char} {c : Char} (h : c ∈ stripChars l) :
    c ∈ l := by
  unfold stripChars at h
  rw [List.mem_reverse] at h
  have h2 : c ∈ (l.dropWhile pyIsSpaceChar).reverse :=
    (List.dropWhile_sublist _).subset h
  rw [List.mem_reverse] at h2
  exact (List.dropWhile_sublist _).subset h2

lemma take_ne_nil {α : Type} {l : List α} (h : l ≠ []) {n : Nat} (hn : 0 < n) :
    l.take n ≠ [] := by
  cases l with
  | nil => exact absurd rfl h
  | cons x xs =>
    cases n with
    | zero => omega
    | succ n' => simp

lemma placeholderChars_ne_nil (urlHash : Int) : placeholderChars urlHash ≠ [] := by
  unfold placeholderChars
  intro h
  have := congrArg List.length h
  simp [List.length_append] at this

lemma sanitizeChars_props (title : List Char) (urlHash : Int) :
    sanitizeChars title urlHash ≠ [] ∧
    (sanitizeChars title urlHash).length ≤ 100 ∧
    ∀ c ∈ sanitizeChars title urlHash,
      c.isAlphanum = true ∨ c = '.' ∨ c = '_' ∨ c = '-' := by
  unfold sanitizeChars
  refine ⟨?_, ?_, ?_⟩
  · split
    · exact take_ne_nil (placeholderChars_ne_nil urlHash) (by omega)
    · rename_i hne
      refine take_ne_nil ?_ (by omega)
      intro hnil
      rw [hnil] at hne
      simp at hne
  · rw [List.length_take]
    exact Nat.min_le_left _ _
  · intro c hc
    have hmem := List.mem_of_mem_take hc
    revert hmem
    split
    · intro hmem
      unfold placeholderChars at hmem
      rcases List.mem_append.mp hmem with h1 | h1
      · have hall : ∀ x ∈ "Untitled_Video_".data,
            x.isAlphanum = true ∨ x = '.' ∨ x = '_' ∨ x = '-' := by decide
        exact hall c h1
      · exact Or.inl (natChars_alnum _ c h1)
    · intro hmem
      unfold cleanedChars spaceToUnderscore at hmem
      obtain ⟨a, ha, hac⟩ := List.mem_map.mp hmem
      by_cases hsp : a = ' '
      · rw [hsp] at hac
        simp at hac
        exact Or.inr (Or.inr (Or.inl hac.symm))
      · rw [if_neg hsp] at hac
        subst hac
        have hkeep : keepChar a = true :=
          List.of_mem_filter (mem_of_mem_stripChars ha)
        unfold keepChar at hkeep
        simp only [Bool.or_eq_true, decide_eq_true_eq] at hkeep
        rcases hkeep with ((((h | h) | h) | h) | h)
        · exact Or.inl h
        · exact absurd h hsp
        · exact Or.inr (Or.inl h)
        · exact Or.inr (Or.inr (Or.inl h))
        · exact Or.inr (Or.inr (Or.inr h))

lemma sanitizeChars_all_symbols {title : List Char} (urlHash : Int)
    (h : ∀ c ∈ title, keepChar c = false) :
    sanitizeChars title urlHash = placeholderChars urlHash := by
  have hfil : title.filter keepChar = [] :=
    List.filter_eq_nil_iff.mpr fun a ha => by rw [h a ha]; decide
  have hclean : cleanedChars title = [] := by
    unfold cleanedChars
    rw [hfil]
    rfl
  unfold sanitizeChars
  rw [hclean]
  show List.take 100 (placeholderChars urlHash) = placeholderChars urlHash
  apply List.take_of_length_le
  have h1 := Int.emod_nonneg urlHash (show (100000 : Int) ≠ 0 by norm_num)
  have h2 := Int.emod_lt_of_pos urlHash (show (0 : Int) < 100000 by norm_num)
  have hbound : (urlHash.emod 100000).toNat < 100000 := by
    show (urlHash % 100000).toNat < 100000
    omega
  have hlen := natChars_length_le 5 (urlHash.emod 100000).toNat (by
    have h5 : (10 : Nat) ^ 5 = 100000 := by norm_num
    rw [h5]
    exact hbound)
  unfold placeholderChars
  rw [List.length_append]
  have : ("Untitled_Video_".data).length = 15 := by decide
  omega

/-- C5: the sanitization of source lines 407-413, applied to any title
(with the time-based fallback of line 407 for empty titles), yields a
non-empty string of at most 100 characters containing only
alphanumerics, dot, underscore and hyphen (spaces having been replaced
by underscores); and a title made only of disallowed symbols yields the
deterministic non-empty hash-derived placeholder
`Untitled_Video_<hash(url) mod 100000>` rather than an empty string. -/
theorem sanitize_title_props (title : String) (urlHash : Int) (now : Nat) :
    (sanitizeTitle (effectiveTitle title now) urlHash ≠ "" ∧
      (sanitizeTitle (effectiveTitle title now) urlHash).length ≤ 100 ∧
      ∀ c ∈ (sanitizeTitle (effectiveTitle title now) urlHash).data,
        c.isAlphanum = true ∨ c = '.' ∨ c = '_' ∨ c = '-') ∧
    ((∀ c ∈ title.data, keepChar c = false) →
      sanitizeTitle title urlHash = String.mk (placeholderChars urlHash)) := by
  obtain ⟨h1, h2, h3⟩ := sanitizeChars_props (effectiveTitle title now).data urlHash
  refine ⟨⟨?_, h2, h3⟩, ?_⟩
  · intro hmk
    exact h1 (congrArg String.data hmk)
  · intro hall
    unfold sanitizeTitle
    rw [sanitizeChars_all_symbols urlHash hall]

theorem sanitize_title_props_witness :
    sanitizeTitle (effectiveTitle "A/B? Test*" 0) 7 ≠ "" ∧
    (∀ c ∈ "????".data, keepChar c = false) ∧
    sanitizeTitle "????" 7 = String.mk (placeholderChars 7) ∧
    sanitizeTitle "A/B? Test*" 7 = "AB_Test" :=
  ⟨(sanitize_title_props "A/B? Test*" 7 0).1.1,
    by decide,
    (sanitize_title_props "????" 7 0).2 (by decide),
    by decide⟩

/-! ## C8: the Discovery retry envelope -/

/-- A feed that yields no qualifying element and no height change:
Discovery ends at once via the height-stable branch, with zero items,
and returns success. -/
def emptyFeed : Nat → List Element × Int := fun _ => ([], 0)

/-- The real scraping phase on the empty feed, as the trial function of
the controller's retry envelope: zero items, normal termination,
`True` returned. -/
def phaseEmptyFeed : Nat → List ItemRecord × Bool := fun _ =>
  ((scrapeShortsDataPhase (fun s => s) 0 emptyFeed (fun _ => false) 5 0).1.scraped_data,
   match (scrapeShortsDataPhase (fun s => s) 0 emptyFeed (fun _ => false) 5 0).2 with
   | some b => b
   | none => false)

/-- C8 counterexample: an attempt that terminates normally with zero
items IS accepted as the success that ends the retry loop.
`_scrape_shorts_data_phase` returns `True` on every normal termination
regardless of how many items were found (source lines 276-278), and
`run_full_process` breaks out of its retry loop on any `True` (source
lines 538-541): with 3 retries available and a feed yielding nothing,
exactly one trial runs and the envelope reports success with an empty
store — the claimed retry on zero items never happens. -/
theorem zero_item_discovery_accepted_counterexample :
    scrapeEnvelope (fun _ => false) (fun _ => true) phaseEmptyFeed 3 = (1, true, []) := by
  decide

/-- Every exit of the envelope loop reports at least as many trials as
already performed. -/
lemma scrapeEnvelopeGo_attempts_ge (cancel initOk : Nat → Bool)
    (phase : Nat → List ItemRecord × Bool) :
    ∀ (fuel k : Nat) (data : List ItemRecord),
      k ≤ (scrapeEnvelopeGo cancel initOk phase fuel k data).1 := by
  intro fuel
  induction fuel with
  | zero => intro k data; exact le_refl _
  | succ n ih =>
    intro k data
    rw [scrapeEnvelopeGo]
    split
    · exact le_refl _
    · split
      · exact le_trans (by omega) (ih (k + 1) data)
      · split
        · show k ≤ k + 1; omega
        · exact le_trans (by omega) (ih (k + 1) _)

/-- C8 amended: the controller retries Discovery (fresh browser session
per trial) up to the configured count only when a trial fails browser
initialization or the phase returns `False` (Cancelled / Failed);
a first trial that terminates normally ends the retry loop as a
success even when it yielded zero items, while a first trial returning
`False` leads to at least a second trial whenever a retry remains. -/
theorem discovery_retry_envelope (cancel initOk : Nat → Bool)
    (phase : Nat → List ItemRecord × Bool) (retries : Nat) (d : List ItemRecord) :
    (cancel 0 = false → initOk 0 = true → phase 0 = (d, true) →
      scrapeEnvelope cancel initOk phase retries = (1, true, d)) ∧
    (1 ≤ retries → cancel 0 = false → cancel 1 = false → initOk 0 = true →
      (phase 0).2 = false →
      2 ≤ (scrapeEnvelope cancel initOk phase retries).1) := by
  constructor
  · intro h1 h2 h3
    unfold scrapeEnvelope
    rw [scrapeEnvelopeGo]
    rw [if_neg (by simp [h1])]
    rw [if_neg (by simp [h2])]
    rw [if_pos (by rw [h3])]
    rw [h3]
  · intro hr h1 h1' h2 hp
    unfold scrapeEnvelope
    rw [scrapeEnvelopeGo]
    rw [if_neg (by simp [h1])]
    rw [if_neg (by simp [h2])]
    rw [if_neg (by simp [hp])]
    obtain ⟨m, rfl⟩ : ∃ m, retries = m + 1 := ⟨retries - 1, by omega⟩
    rw [scrapeEnvelopeGo]
    rw [if_neg (by simp [h1'])]
    split
    · exact le_trans (by omega) (scrapeEnvelopeGo_attempts_ge cancel initOk phase m 2 _)
    · split
      · show 2 ≤ 1 + 1 + 1 - 1; omega
      · exact le_trans (by omega) (scrapeEnvelopeGo_attempts_ge cancel initOk phase m 2 _)

/-- A trial function whose every attempt fails (e.g. the phase raised
or was cancelled). -/
def phaseAlwaysFailing : Nat → List ItemRecord × Bool := fun _ => ([], false)

theorem discovery_retry_envelope_witness :
    scrapeEnvelope (fun _ => false) (fun _ => true) phaseEmptyFeed 2 = (1, true, []) ∧
    2 ≤ (scrapeEnvelope (fun _ => false) (fun _ => true) phaseAlwaysFailing 3).1 :=
  ⟨(discovery_retry_envelope (fun _ => false) (fun _ => true) phaseEmptyFeed 2 []).1
      rfl rfl (by decide),
    (discovery_retry_envelope (fun _ => false) (fun _ => true) phaseAlwaysFailing 3 []).2
      (by omega) rfl rfl rfl rfl⟩

/-! ## C9: behaviour when Discovery never succeeds -/

/-- The real scraping phase with the stop flag already set at its first
iteration: cancelled, `False` returned, no data. -/
def phaseCancelled : Nat → List ItemRecord × Bool := fun _ =>
  ((scrapeShortsDataPhase (fun s => s) 0 emptyFeed (fun _ => true) 5 0).1.scraped_data,
   match (scrapeShortsDataPhase (fun s => s) 0 emptyFeed (fun _ => true) 5 0).2 with
   | some b => b
   | none => false)

/-- C9 counterexample: when every Discovery trial fails, the controller
does NOT write the result files — `run_full_process` calls only
`_display_final_stats` on that path (source lines 557-560);
`_save_final_results` (the all-items dump, the batch spreadsheets and
the error report, source lines 581-635) runs only after the download
phase (line 577).  Concretely, with every trial cancelled the run ends
with statistics displayed but nothing persisted. -/
theorem discovery_failure_no_persistence_counterexample :
    (runFullProcess (fun _ => false) (fun _ => true) phaseCancelled 2 true
      (fun _ => false) (fun _ => "") (fun _ => DlOutcome.success) 20).savedResults
        = false ∧
    (runFullProcess (fun _ => false) (fun _ => true) phaseCancelled 2 true
      (fun _ => false) (fun _ => "") (fun _ => DlOutcome.success) 20).displayedStats
        = true := by
  constructor <;> decide

/-- C9 amended: if Discovery never succeeds (all trials fail or the run
is cancelled during it), the controller reports final statistics and
runs neither the enrichment phase nor the download phase, but it does
NOT persist the result files (that happens only after the download
phase). -/
theorem discovery_failure_final_stats_only (cancel initOk : Nat → Bool)
    (phase : Nat → List ItemRecord × Bool) (retries : Nat)
    (descDriverOk : Bool) (descCancel : Nat → Bool) (descOf : Nat → String)
    (oracle : Nat → DlOutcome) (batchSize : Nat)
    (h : (scrapeEnvelope cancel initOk phase retries).2.1 = false) :
    (runFullProcess cancel initOk phase retries descDriverOk descCancel descOf
        oracle batchSize).displayedStats = true ∧
    (runFullProcess cancel initOk phase retries descDriverOk descCancel descOf
        oracle batchSize).savedResults = false ∧
    (runFullProcess cancel initOk phase retries descDriverOk descCancel descOf
        oracle batchSize).descTried = false ∧
    (runFullProcess cancel initOk phase retries descDriverOk descCancel descOf
        oracle batchSize).downloadTried = false ∧
    (runFullProcess cancel initOk phase retries descDriverOk descCancel descOf
        oracle batchSize).urlVisits = 0 ∧
    (runFullProcess cancel initOk phase retries descDriverOk descCancel descOf
        oracle batchSize).dlInvocations = 0 := by
  unfold runFullProcess
  rw [h]
  exact ⟨rfl, rfl, rfl, rfl, rfl, rfl⟩

theorem discovery_failure_final_stats_only_witness :
    (scrapeEnvelope (fun _ => false) (fun _ => true) phaseCancelled 1).2.1 = false ∧
    (runFullProcess (fun _ => false) (fun _ => true) phaseCancelled 1 true
      (fun _ => false) (fun _ => "") (fun _ => DlOutcome.success) 20).displayedStats
        = true :=
  ⟨by decide,
    (discovery_failure_final_stats_only (fun _ => false) (fun _ => true) phaseCancelled 1
      true (fun _ => false) (fun _ => "") (fun _ => DlOutcome.success) 20 (by decide)).1⟩

/-! ## C10: a successful but empty Discovery -/

/-- C10: when Discovery succeeds with an empty store, the enrichment
phase returns failure without visiting a single URL (source lines
293-296), and the controller then displays final statistics but never
runs the download phase and never writes the final result files
(source lines 564-578: the early return after a failed description
phase skips `_download_videos`, `_save_final_results`). -/
theorem empty_store_skips_later_phases (cancel initOk : Nat → Bool)
    (phase : Nat → List ItemRecord × Bool) (retries : Nat)
    (descDriverOk : Bool) (descCancel : Nat → Bool) (descOf : Nat → String)
    (oracle : Nat → DlOutcome) (batchSize : Nat) (a : Nat)
    (h : scrapeEnvelope cancel initOk phase retries = (a, true, [])) :
    (runFullProcess cancel initOk phase retries descDriverOk descCancel descOf
        oracle batchSize).descTried = true ∧
    (runFullProcess cancel initOk phase retries descDriverOk descCancel descOf
        oracle batchSize).descOk = false ∧
    (runFullProcess cancel initOk phase retries descDriverOk descCancel descOf
        oracle batchSize).urlVisits = 0 ∧
    (runFullProcess cancel initOk phase retries descDriverOk descCancel descOf
        oracle batchSize).downloadTried = false ∧
    (runFullProcess cancel initOk phase retries descDriverOk descCancel descOf
        oracle batchSize).savedResults = false ∧
    (runFullProcess cancel initOk phase retries descDriverOk descCancel descOf
        oracle batchSize).displayedStats = true := by
  unfold runFullProcess
  rw [h]
  exact ⟨rfl, rfl, rfl, rfl, rfl, rfl⟩

theorem empty_store_skips_later_phases_witness :
    scrapeEnvelope (fun _ => false) (fun _ => true) phaseEmptyFeed 3 = (1, true, []) ∧
    (runFullProcess (fun _ => false) (fun _ => true) phaseEmptyFeed 3 true
      (fun _ => false) (fun _ => "") (fun _ => DlOutcome.success) 20).downloadTried
        = false :=
  ⟨by decide,
    (empty_store_skips_later_phases (fun _ => false) (fun _ => true) phaseEmptyFeed 3
      true (fun _ => false) (fun _ => "") (fun _ => DlOutcome.success) 20 1
      (by decide)).2.2.2.1⟩

end YTShorts
